import Mathlib

/-!
Verification of the go-install repository against its design specification.

Shallow embedding conventions:
* Go strings (byte/char sequences) are modelled as `List Char`, written `Str`.
  `strings.HasPrefix` is `List.isPrefixOf`, `strings.Contains` is
  `containsStr`, string concatenation is list append.
* Fallible Go functions returning `error` are modelled with `Except Str`.
* The filesystem is an association list from paths to file contents; the
  external collaborators excluded by the spec (terminal rendering, the bubbles
  spinner/list widgets, the OS package manager) are abstracted: a style's
  `Render` is the identity and the spinner is carried as an opaque string.
* The bubbletea event loop is modelled by pure `update` functions
  `model → msg → model × command` translated statement-by-statement from the
  Go `Update` methods, plus an explicit dispatch discipline: a step-completion
  message may only be consumed when the corresponding asynchronous command was
  the one issued by the previous transition (this is exactly how bubbletea
  delivers the message produced by the command it ran).
-/

/-- Go strings modelled as character lists. -/
abbrev Str := List Char

/-! ## common: NormalizeVersion (src/main.go, package common) -/

/-- Embedding of `common.NormalizeVersion`:
`if v == "" { return "" }; if !strings.HasPrefix(v, "go") { return "go" + v }; return v`. -/
def NormalizeVersion (v : Str) : Str :=
  if v = [] then []
  else if !(List.isPrefixOf "go".data v) then "go".data ++ v
  else v

/-! ## common: release catalog data model and FindBuild (src/main.go) -/

/-- One entry of `GoRelease.Files`: `{Filename, OS, Arch, Kind, Sha256}`. -/
structure GoFile where
  filename : Str
  os : Str
  arch : Str
  kind : Str
  sha256 : Str
deriving DecidableEq

/-- `common.GoRelease`: `{Version, Files}`. -/
structure GoRelease where
  version : Str
  files : List GoFile
deriving DecidableEq

/-- The error string `fmt.Errorf("version %s not found", ver)`. -/
def errNotFound (ver : Str) : Str :=
  "version ".data ++ ver ++ " not found".data

/-- The error string
`fmt.Errorf("version %s exists but no archive for %s/%s", ver, goos, arch)`. -/
def errNoArchive (ver goos arch : Str) : Str :=
  "version ".data ++ ver ++ " exists but no archive for ".data ++ goos
    ++ "/".data ++ arch

/-- The inner loop of `common.FindBuild`: the first file of `files` with
`f.Kind == "archive" && f.OS == goos && f.Arch == arch`. -/
def findArchiveFile (files : List GoFile) (goos arch : Str) : Option GoFile :=
  match files with
  | [] => none
  | f :: rest =>
    if f.kind = "archive".data ∧ f.os = goos ∧ f.arch = arch then some f
    else findArchiveFile rest goos arch

/-- Embedding of `common.FindBuild`: scan the releases in published order for
the first one whose `Version` equals `ver`; inside it scan `Files` for the
first archive entry matching `goos`/`arch`.  Mirrors the Go double loop,
including the early `return` with the "exists but no archive" error when the
matching release has no matching file. -/
def FindBuild (all : List GoRelease) (ver goos arch : Str) :
    Except Str (GoRelease × Str × Str) :=
  match all with
  | [] => .error (errNotFound ver)
  | r :: rest =>
    if r.version = ver then
      match findArchiveFile r.files goos arch with
      | some f => .ok (r, f.filename, f.sha256)
      | none => .error (errNoArchive ver goos arch)
    else FindBuild rest ver goos arch

/-- Specification-side restatement of the build selector, written from the
spec's words (spec §4.2 / §8): find the release whose version equals the
request, then the first `kind == "archive"` file matching os/arch, using
`List.find?` for "first in published order"; version absent and platform
absent are the two distinct failures. -/
def selectSpec (all : List GoRelease) (ver goos arch : Str) :
    Except Str (GoRelease × Str × Str) :=
  match all.find? (fun r => r.version == ver) with
  | none => .error (errNotFound ver)
  | some r =>
    match r.files.find? (fun f =>
        f.kind == "archive".data && f.os == goos && f.arch == arch) with
    | some f => .ok (r, f.filename, f.sha256)
    | none => .error (errNoArchive ver goos arch)

lemma findArchiveFile_eq_find? (files : List GoFile) (goos arch : Str) :
    findArchiveFile files goos arch
      = files.find? (fun f =>
          f.kind == "archive".data && f.os == goos && f.arch == arch) := by
  induction files with
  | nil => rfl
  | cons f rest ih =>
    simp only [findArchiveFile, List.find?_cons]
    by_cases h : f.kind = "archive".data ∧ f.os = goos ∧ f.arch = arch
    · simp [h]
    · have hb : (f.kind == "archive".data && f.os == goos && f.arch == arch)
          = false := by
        rcases Classical.em (f.kind = "archive".data) with h1 | h1
        · rcases Classical.em (f.os = goos) with h2 | h2
          · rcases Classical.em (f.arch = arch) with h3 | h3
            · exact absurd ⟨h1, h2, h3⟩ h
            · simp [h3]
          · simp [h2]
        · simp [h1]
      simp [h, hb, ih]

/-- The two failure messages of the build selector are never the same string,
whatever the version and platform: the selector's failures are distinct. -/
lemma errNotFound_ne_errNoArchive (ver goos arch : Str) :
    errNotFound ver ≠ errNoArchive ver goos arch := by
  intro h
  have hl := congrArg List.length h
  simp [errNotFound, errNoArchive, List.length_append] at hl

/-- C1: for every catalog, requested version, OS and architecture, `FindBuild`
returns the first archive-kind file of the first release carrying the
requested version that matches the platform (scanning files in published
order), the "version not found" failure when no release has the version, and
the distinct "version exists but no archive" failure when the release exists
but no archive matches — i.e. it coincides with the spec's `select`, and the
two failure messages are always distinct. -/
theorem FindBuild_eq_selectSpec (all : List GoRelease) (ver goos arch : Str) :
    FindBuild all ver goos arch = selectSpec all ver goos arch
      ∧ errNotFound ver ≠ errNoArchive ver goos arch := by
  refine ⟨?_, errNotFound_ne_errNoArchive ver goos arch⟩
  induction all with
  | nil => rfl
  | cons r rest ih =>
    simp only [FindBuild, selectSpec, List.find?_cons]
    by_cases h : r.version = ver
    · simp [h, findArchiveFile_eq_find?, selectSpec]
    · have hb : (r.version == ver) = false := by simp [h]
      simpa [h, hb, selectSpec] using ih

/-- C7: `NormalizeVersion` is idempotent, is the identity on strings already
carrying the "go" prefix, and maps the bare numeric version "1.22.1" to
"go1.22.1". -/
theorem NormalizeVersion_idempotent (v : Str) :
    NormalizeVersion (NormalizeVersion v) = NormalizeVersion v
      ∧ (List.isPrefixOf "go".data v → NormalizeVersion v = v)
      ∧ NormalizeVersion "1.22.1".data = "go1.22.1".data := by
  refine ⟨?_, ?_, by decide⟩
  · by_cases h0 : v = []
    · simp [NormalizeVersion, h0]
    · by_cases hp : List.isPrefixOf "go".data v
      · simp [NormalizeVersion, h0, hp]
      · have h1 : NormalizeVersion v = "go".data ++ v := by
          simp [NormalizeVersion, h0, hp]
        have h2 : List.isPrefixOf "go".data ("go".data ++ v) := by
          rw [List.isPrefixOf_iff_prefix]
          exact List.prefix_append _ _
        have h3 : "go".data ++ v ≠ [] := by simp
        rw [h1]
        simp [NormalizeVersion, h3, h2]
  · intro hp
    have hne : v ≠ [] := by
      intro h; rw [h] at hp; exact absurd hp (by decide)
    simp [NormalizeVersion, hne, hp]

/-- Witness for C7 at the concrete input "go1.22.1". -/
theorem NormalizeVersion_idempotent_witness :
    NormalizeVersion (NormalizeVersion "go1.22.1".data)
        = NormalizeVersion "go1.22.1".data
      ∧ NormalizeVersion "go1.22.1".data = "go1.22.1".data :=
  ⟨(NormalizeVersion_idempotent "go1.22.1".data).1,
   (NormalizeVersion_idempotent "go1.22.1".data).2.1 (by decide)⟩

/-! ## Byte-level model: filesystem, SHA-256, checksum verification
(src/internal/cli/sysDepedencies.go) -/

/-- File contents as byte lists (Go `[]byte`). -/
abbrev Bytes := List Nat

/-- The filesystem as an association list from paths to contents. -/
def lookupFile {α : Type} : List (Str × α) → Str → Option α
  | [], _ => none
  | (k, v) :: rest, name => if k = name then some v else lookupFile rest name

/-- Create or overwrite a file. -/
def setFile {α : Type} : List (Str × α) → Str → α → List (Str × α)
  | [], name, content => [(name, content)]
  | (k, v) :: rest, name, content =>
    if k = name then (k, content) :: rest
    else (k, v) :: setFile rest name content

/-- 32-bit truncating addition. -/
def add32 (a b : Nat) : Nat := (a + b) % 4294967296

/-- Right rotation of a 32-bit word. -/
def rotr (n x : Nat) : Nat := (x >>> n) ||| ((x <<< (32 - n)) % 4294967296)

def bigS0 (x : Nat) : Nat := rotr 2 x ^^^ rotr 13 x ^^^ rotr 22 x

def bigS1 (x : Nat) : Nat := rotr 6 x ^^^ rotr 11 x ^^^ rotr 25 x

def smallS0 (x : Nat) : Nat := rotr 7 x ^^^ rotr 18 x ^^^ (x >>> 3)

def smallS1 (x : Nat) : Nat := rotr 17 x ^^^ rotr 19 x ^^^ (x >>> 10)

def chFn (x y z : Nat) : Nat := (x &&& y) ^^^ ((x ^^^ 4294967295) &&& z)

def majFn (x y z : Nat) : Nat := (x &&& y) ^^^ (x &&& z) ^^^ (y &&& z)

/-- The 64 SHA-256 round constants of FIPS 180-4 (the table used by Go's
`crypto/sha256`), written in decimal. -/
def sha256K : List Nat :=
  [1116352408, 1899447441, 3049323471, 3921009573, 961987163,
   1508970993, 2453635748, 2870763221, 3624381080, 310598401,
   607225278, 1426881987, 1925078388, 2162078206, 2614888103,
   3248222580, 3835390401, 4022224774, 264347078, 604807628,
   770255983, 1249150122, 1555081692, 1996064986, 2554220882,
   2821834349, 2952996808, 3210313671, 3336571891, 3584528711,
   113926993, 338241895, 666307205, 773529912, 1294757372,
   1396182291, 1695183700, 1986661051, 2177026350, 2456956037,
   2730485921, 2820302411, 3259730800, 3345764771, 3516065817,
   3600352804, 4094571909, 275423344, 430227734, 506948616,
   659060556, 883997877, 958139571, 1322822218, 1537002063,
   1747873779, 1955562222, 2024104815, 2227730452, 2361852424,
   2428436474, 2756734187, 3204031479, 3329325298]

/-- The eight SHA-256 initial hash words, in decimal. -/
def sha256H0 : List Nat :=
  [1779033703, 3144134277, 1013904242, 2773480762,
   1359893119, 2600822924, 528734635, 1541459225]

/-- Big-endian byte decomposition: `toBytesBE n x` is the `n` lowest bytes of
`x`, most significant first. -/
def toBytesBE : Nat → Nat → Bytes
  | 0, _ => []
  | n + 1, x => toBytesBE n (x >>> 8) ++ [x % 256]

/-- SHA-256 padding: append `0x80`, zeros up to 56 mod 64, then the bit
length as a 64-bit big-endian integer. -/
def padMessage (msg : Bytes) : Bytes :=
  let L := msg.length
  let k := (119 - L % 64) % 64
  msg ++ [0x80] ++ List.replicate k 0 ++ toBytesBE 8 (8 * L)

/-- Group bytes into 32-bit big-endian words. -/
def wordsOfBytes : Bytes → List Nat
  | b0 :: b1 :: b2 :: b3 :: rest =>
    (((b0 * 256 + b1) * 256 + b2) * 256 + b3) :: wordsOfBytes rest
  | _ => []

/-- One step of the message-schedule extension (`W[t] = σ1(W[t-2]) + W[t-7] +
σ0(W[t-15]) + W[t-16]`). -/
def scheduleStep (ws : List Nat) : List Nat :=
  ws ++ [add32 (smallS1 (ws.getD (ws.length - 2) 0))
          (add32 (ws.getD (ws.length - 7) 0)
            (add32 (smallS0 (ws.getD (ws.length - 15) 0))
              (ws.getD (ws.length - 16) 0)))]

/-- One SHA-256 compression round on the eight working variables. -/
def roundFn (st : List Nat) (k w : Nat) : List Nat :=
  match st with
  | [a, b, c, d, e, f, g, h] =>
    let t1 := add32 h (add32 (bigS1 e) (add32 (chFn e f g) (add32 k w)))
    let t2 := add32 (bigS0 a) (majFn a b c)
    [add32 t1 t2, a, b, c, add32 d t1, e, f, g]
  | other => other

/-- Compress one 64-byte block into the running hash state. -/
def compressBlock (H : List Nat) (block : Bytes) : List Nat :=
  let w16 := wordsOfBytes block
  let w := (List.range 48).foldl (fun ws _ => scheduleStep ws) w16
  let st := (sha256K.zip w).foldl (fun s kw => roundFn s kw.1 kw.2) H
  List.zipWith add32 H st

/-- Iterate the compression function over successive 64-byte blocks;
`fuel` is the number of blocks. -/
def sha256Iter : Nat → List Nat → Bytes → List Nat
  | 0, H, _ => H
  | n + 1, H, l => sha256Iter n (compressBlock H (l.take 64)) (l.drop 64)

/-- SHA-256 of a byte string (FIPS 180-4, the function computed by the
`crypto/sha256` digest that `verifyChecksum` streams the file through),
returned as 32 bytes. -/
def sha256 (msg : Bytes) : Bytes :=
  let p := padMessage msg
  ((sha256Iter (p.length / 64) sha256H0 p).map (toBytesBE 4)).flatten

/-- Lowercase hex digits, as produced by Go's `hex.EncodeToString`. -/
def hexDigit (n : Nat) : Char := "0123456789abcdef".data.getD n '0'

/-- `hex.EncodeToString`: two lowercase hex digits per byte. -/
def hexEncode (bytes : Bytes) : Str :=
  (bytes.map (fun b => [hexDigit (b >>> 4), hexDigit (b % 16)])).flatten

/-- Embedding of `verifyChecksum(name, want)`: hash the file's bytes, hex
encode, and compare with `got != want`; on mismatch return the
`"sha mismatch: want=%s got=%s"` error.  The file's content stands in for the
opened file. -/
def verifyChecksum (content : Bytes) (want : Str) : Except Str Unit :=
  let got := hexEncode (sha256 content)
  if got ≠ want then
    .error ("sha mismatch: want=".data ++ want ++ " got=".data ++ got)
  else .ok ()

/-- Whether an `Except` result is a success. -/
def exceptOk {ε α : Type} : Except ε α → Bool
  | .ok _ => true
  | .error _ => false

/-- ASCII lowercasing of one character (for the spec's "case-insensitive hex
comparison"). -/
def lowerChar (c : Char) : Char :=
  if 'A' ≤ c ∧ c ≤ 'Z' then Char.ofNat (c.toNat + 32) else c

/-- Case-insensitive string comparison, written from the spec's words. -/
def caseInsensitiveEq (a b : Str) : Prop := a.map lowerChar = b.map lowerChar

instance (a b : Str) : Decidable (caseInsensitiveEq a b) := by
  unfold caseInsensitiveEq; infer_instance

/-- The SHA-256 digest of the empty byte string, in uppercase hex. -/
def emptyDigestUpper : Str :=
  "E3B0C44298FC1C149AFBF4C8996FB92427AE41E4649B934CA495991B7852B855".data

example : hexEncode (sha256 []) =
    "e3b0c44298fc1c149afbf4c8996fb92427ae41e4649b934ca495991b7852b855".data := by
  decide

lemma verifyChecksum_ok_iff (content : Bytes) (want : Str) :
    verifyChecksum content want = .ok () ↔ want = hexEncode (sha256 content) := by
  unfold verifyChecksum
  by_cases h : hexEncode (sha256 content) = want
  · simp [h]
  · simp only [ne_eq, h, not_false_eq_true, if_true]
    constructor
    · intro he; exact absurd he (by simp)
    · intro he; exact absurd he.symm h

lemma verifyChecksum_error_of_ne (content : Bytes) (want : Str)
    (h : want ≠ hexEncode (sha256 content)) :
    verifyChecksum content want
      = .error ("sha mismatch: want=".data ++ want ++ " got=".data
          ++ hexEncode (sha256 content)) := by
  have h2 : ¬ hexEncode (sha256 content) = want := fun he => h he.symm
  unfold verifyChecksum
  simp [h2]

/-- C2 counterexample: the empty file together with the correct digest written
in uppercase hex.  The digest matches the file's SHA-256 hash under
case-insensitive hex comparison, yet `verifyChecksum` rejects it — the code's
comparison `got != want` is case-sensitive, refuting the claim as stated. -/
theorem verifyChecksum_not_caseInsensitive :
    caseInsensitiveEq (hexEncode (sha256 [])) emptyDigestUpper
      ∧ exceptOk (verifyChecksum [] emptyDigestUpper) = false := by
  constructor
  · decide
  · decide

/-- C2 (amended): checksum verification succeeds if and only if the declared
digest equals, byte for byte and case-sensitively, the lowercase hex encoding
of the file's SHA-256 hash; any other declared digest — in particular any one
arising from a file whose content hash differs — is rejected with the
"sha mismatch" error. -/
theorem verifyChecksum_exact (content : Bytes) (want : Str) :
    (verifyChecksum content want = .ok () ↔ want = hexEncode (sha256 content))
      ∧ (want ≠ hexEncode (sha256 content) →
          verifyChecksum content want
            = .error ("sha mismatch: want=".data ++ want ++ " got=".data
                ++ hexEncode (sha256 content))) :=
  ⟨verifyChecksum_ok_iff content want, verifyChecksum_error_of_ne content want⟩

/-- Witness for C2's amended theorem at a concrete mismatching digest. -/
theorem verifyChecksum_exact_witness :
    verifyChecksum [] "00".data
      = .error ("sha mismatch: want=".data ++ "00".data ++ " got=".data
          ++ hexEncode (sha256 [])) :=
  (verifyChecksum_exact [] "00".data).2 (by decide)

/-! ## downloadFile (src/internal/cli/sysDepedencies.go) -/

/-- An HTTP response whose transport completed: a status code and the raw
body bytes. -/
structure HttpResponse where
  statusCode : Nat
  body : Bytes
deriving DecidableEq

/-- Embedding of `downloadFile(name)`: `os.Create` first creates/truncates
the local file, then the result of `http.Get` (a transport error or a
response — the status code is never inspected) has its body copied into the
file.  The network result is passed as a parameter. -/
def downloadFile (name : Str) (resp : Except Str HttpResponse)
    (fs : List (Str × Bytes)) : List (Str × Bytes) × Except Str Unit :=
  let fs1 := setFile fs name []
  match resp with
  | .error e => (fs1, .error e)
  | .ok r => (setFile fs1 name r.body, .ok ())

lemma lookupFile_setFile_self {α : Type} (fs : List (Str × α)) (name : Str)
    (v : α) : lookupFile (setFile fs name v) name = some v := by
  induction fs with
  | nil => simp [setFile, lookupFile]
  | cons kv rest ih =>
    by_cases h : kv.1 = name
    · simp [setFile, lookupFile, h]
    · simp [setFile, lookupFile, h, ih]

lemma lookupFile_setFile_ne {α : Type} (fs : List (Str × α)) (name k : Str)
    (v : α) (h : k ≠ name) :
    lookupFile (setFile fs name v) k = lookupFile fs k := by
  have h' : ¬ name = k := fun he => h he.symm
  induction fs with
  | nil => simp [setFile, lookupFile, h']
  | cons kv rest ih =>
    obtain ⟨a, b⟩ := kv
    by_cases hk : a = name
    · have hak : ¬ a = k := fun he => h' (hk.symm.trans he)
      simp [setFile, lookupFile, hk, hak, h']
    · by_cases hk2 : a = k
      · simp [setFile, lookupFile, hk, hk2, h]
      · simp [setFile, lookupFile, hk, hk2, ih]

/-- C10: for every HTTP response whose transport completes, `downloadFile`
reports success whatever the status code: the result is literally independent
of the status code, the response body (e.g. a 404 error page) is written to
the local archive file, and the call returns success. -/
theorem downloadFile_ignores_status (name : Str) (code code' : Nat)
    (body : Bytes) (fs : List (Str × Bytes)) :
    downloadFile name (.ok ⟨code, body⟩) fs
        = (setFile (setFile fs name []) name body, .ok ())
      ∧ downloadFile name (.ok ⟨code, body⟩) fs
        = downloadFile name (.ok ⟨code', body⟩) fs
      ∧ lookupFile (downloadFile name (.ok ⟨code, body⟩) fs).1 name
        = some body := by
  refine ⟨rfl, rfl, ?_⟩
  simp [downloadFile, lookupFile_setFile_self]

/-! ## setupEnvironment (src/internal/cli/sysDepedencies.go) -/

/-- `strings.Contains(s, pat)`: some suffix of `s` starts with `pat`. -/
def containsStr (s pat : Str) : Bool :=
  match s with
  | [] => List.isPrefixOf pat []
  | c :: t => List.isPrefixOf pat (c :: t) || containsStr t pat

/-- Number of (possibly overlapping) occurrences of `pat` in `s`: the number
of suffixes of `s` that start with `pat`. -/
def countOccur (pat : Str) : Str → Nat
  | [] => if List.isPrefixOf pat [] then 1 else 0
  | c :: rest =>
    (if List.isPrefixOf pat (c :: rest) then 1 else 0) + countOccur pat rest

lemma containsStr_append_right (a b pat : Str) (h : containsStr b pat = true) :
    containsStr (a ++ b) pat = true := by
  induction a with
  | nil => simpa
  | cons x a' ih => simp [containsStr, ih]

/-- A pattern avoiding a character `c` starts a suffix of `s ++ c :: b'` iff
it starts the corresponding suffix of `s`: no occurrence straddles into the
`c`-headed tail. -/
lemma notMem_isPrefixOf_append (c : Char) (b' : Str) :
    ∀ (pat : Str), c ∉ pat → ∀ (s : Str),
      List.isPrefixOf pat (s ++ c :: b') = List.isPrefixOf pat s := by
  intro pat
  induction pat with
  | nil => intro _ s; cases s <;> simp [List.isPrefixOf]
  | cons p pt ih =>
    intro hc s
    cases s with
    | nil =>
      have hpc : (p == c) = false := by
        simp only [beq_eq_false_iff_ne]; intro h; exact hc (by simp [h])
      simp [List.isPrefixOf, hpc]
    | cons x s' =>
      have hc' : c ∉ pt := fun h => hc (List.mem_cons_of_mem _ h)
      simp [List.isPrefixOf, ih hc' s']

/-- Occurrence counting splits across an append whose right part starts with
a character the pattern avoids. -/
lemma countOccur_append_cons (pat a b' : Str) (c : Char) (hpat : pat ≠ [])
    (hc : c ∉ pat) :
    countOccur pat (a ++ c :: b')
      = countOccur pat a + countOccur pat (c :: b') := by
  induction a with
  | nil =>
    have h0 : countOccur pat [] = 0 := by
      cases pat with
      | nil => exact absurd rfl hpat
      | cons p pt => simp [countOccur, List.isPrefixOf]
    simp [h0]
  | cons x a' ih =>
    have hpre := notMem_isPrefixOf_append c b' pat hc (x :: a')
    simp only [List.cons_append, countOccur, List.append_eq] at hpre ⊢
    simp only [hpre, ih]
    simp only [countOccur]
    omega

/-- The PATH needle checked by `strings.Contains`. -/
def needle : Str := "/usr/local/go/bin".data

/-- The export line appended by `setupEnvironment`. -/
def goPathLine : Str := "export PATH=$PATH:/usr/local/go/bin".data

/-- The comment line appended above the export line. -/
def goPathComment : Str := "# Added by go-install".data

/-- The text that `f.WriteString(fmt.Sprintf("\n%s\n%s\n", ...))` appends. -/
def appendedBlock : Str :=
  "\n".data ++ goPathComment ++ "\n".data ++ goPathLine ++ "\n".data

/-- `appendedBlock` with its leading newline split off. -/
def appendedTail : Str :=
  goPathComment ++ "\n".data ++ goPathLine ++ "\n".data

/-- The candidate shell-config list of `setupEnvironment`: a zsh-specific
file if `$SHELL` mentions zsh, else the bash candidates, else the bashrc
fallback (`filepath.Join home x` modelled as `home ++ "/" ++ x`). -/
def configFilesFor (shell home : Str) : List Str :=
  if containsStr shell "zsh".data then [home ++ "/.zshrc".data]
  else if containsStr shell "bash".data then
    [home ++ "/.bashrc".data, home ++ "/.bash_profile".data]
  else [home ++ "/.bashrc".data]

/-- The candidate loop of `setupEnvironment`: skip missing files; at the
first existing file either return success untouched (needle already present)
or append the block and return success; error if no candidate exists.
Reads/writes of existing files are modelled as always succeeding (the Go
code's `continue` branches on read/open errors have no filesystem-model
counterpart). -/
def setupEnvLoop (fs : List (Str × Str)) :
    List Str → List (Str × Str) × Except Str Unit
  | [] => (fs, .error "could not find shell config file to update".data)
  | cf :: rest =>
    match lookupFile fs cf with
    | none => setupEnvLoop fs rest
    | some content =>
      if containsStr content needle then (fs, .ok ())
      else (setFile fs cf (content ++ appendedBlock), .ok ())

/-- Embedding of `setupEnvironment`, with `$SHELL` and the home directory as
parameters. -/
def setupEnvironment (shell home : Str) (fs : List (Str × Str)) :
    List (Str × Str) × Except Str Unit :=
  setupEnvLoop fs (configFilesFor shell home)

/-- The first candidate path that exists in the filesystem, with its
content. -/
def firstExisting (fs : List (Str × Str)) : List Str → Option (Str × Str)
  | [] => none
  | cf :: rest =>
    match lookupFile fs cf with
    | some content => some (cf, content)
    | none => firstExisting fs rest

lemma firstExisting_lookup (fs : List (Str × Str)) (cfs : List Str)
    (cf content : Str) (h : firstExisting fs cfs = some (cf, content)) :
    lookupFile fs cf = some content := by
  induction cfs with
  | nil => simp [firstExisting] at h
  | cons c rest ih =>
    simp only [firstExisting] at h
    cases hl : lookupFile fs c with
    | some v =>
      rw [hl] at h
      simp only [Option.some.injEq, Prod.mk.injEq] at h
      obtain ⟨h1, h2⟩ := h
      rw [← h1, ← h2]; exact hl
    | none => rw [hl] at h; exact ih h

lemma setupEnvLoop_of_firstExisting (fs : List (Str × Str)) (cfs : List Str)
    (cf content : Str) (h : firstExisting fs cfs = some (cf, content)) :
    setupEnvLoop fs cfs
      = if containsStr content needle then (fs, .ok ())
        else (setFile fs cf (content ++ appendedBlock), .ok ()) := by
  induction cfs with
  | nil => simp [firstExisting] at h
  | cons c rest ih =>
    simp only [firstExisting] at h
    cases hl : lookupFile fs c with
    | some v =>
      rw [hl] at h
      simp only [Option.some.injEq, Prod.mk.injEq] at h
      obtain ⟨h1, h2⟩ := h
      subst h1; subst h2
      simp [setupEnvLoop, hl]
    | none =>
      rw [hl] at h
      simp [setupEnvLoop, hl, ih h]

lemma firstExisting_setFile (fs : List (Str × Str)) (cfs : List Str)
    (cf content X : Str)
    (h : firstExisting fs cfs = some (cf, content)) :
    firstExisting (setFile fs cf X) cfs = some (cf, X) := by
  induction cfs with
  | nil => simp [firstExisting] at h
  | cons c rest ih =>
    simp only [firstExisting] at h ⊢
    cases hl : lookupFile fs c with
    | some v =>
      rw [hl] at h
      simp only [Option.some.injEq, Prod.mk.injEq] at h
      obtain ⟨h1, _⟩ := h
      subst h1
      rw [lookupFile_setFile_self]
    | none =>
      rw [hl] at h
      have hcf : lookupFile fs cf = some content :=
        firstExisting_lookup fs rest cf content h
      have hne : c ≠ cf := by
        intro he; rw [he, hcf] at hl; cases hl
      rw [lookupFile_setFile_ne fs cf c X hne, hl]
      exact ih h

lemma needle_in_appendedBlock : containsStr appendedBlock needle = true := by
  decide

lemma count_goPathLine_appendedBlock :
    countOccur goPathLine ('\n' :: appendedTail) = 1 := by decide

lemma newline_not_in_goPathLine : '\n' ∉ goPathLine := by decide

lemma goPathLine_ne_nil : goPathLine ≠ [] := by decide

/-- A string starting with `pre ++ pat` contains `pat`. -/
lemma containsStr_of_isPrefixOf_append (pre pat : Str) :
    ∀ s : Str, List.isPrefixOf (pre ++ pat) s = true →
      containsStr s pat = true := by
  induction pre with
  | nil =>
    intro s h
    rw [List.nil_append] at h
    cases s with
    | nil => simpa [containsStr] using h
    | cons c t =>
      simp only [containsStr]
      rw [h]
      simp
  | cons p pre' ih =>
    intro s h
    cases s with
    | nil => simp [List.isPrefixOf] at h
    | cons c t =>
      simp only [List.cons_append, List.isPrefixOf, Bool.and_eq_true] at h
      simp [containsStr, ih t h.2]

/-- A file not containing the PATH needle contains no occurrence of the
export line (the export line carries the needle). -/
lemma countOccur_goPathLine_eq_zero (s : Str)
    (h : containsStr s needle = false) : countOccur goPathLine s = 0 := by
  induction s with
  | nil => simp [countOccur, goPathLine_ne_nil, List.isPrefixOf]
  | cons c rest ih =>
    simp only [containsStr, Bool.or_eq_false_iff] at h
    have hpre : List.isPrefixOf goPathLine (c :: rest) = false := by
      cases hb : List.isPrefixOf goPathLine (c :: rest) with
      | false => rfl
      | true =>
        have hdec : goPathLine = "export PATH=$PATH:".data ++ needle := by
          decide
        rw [hdec] at hb
        have hc := containsStr_of_isPrefixOf_append "export PATH=$PATH:".data
          needle (c :: rest) hb
        have hfalse : containsStr (c :: rest) needle = false := by
          simp [containsStr, h.1, h.2]
        rw [hc] at hfalse
        cases hfalse
    simp [countOccur, hpre, ih h.2]

/-- C8: PATH configuration is idempotent.  Whatever the shell and home
directory, if the first existing candidate config file already contains the
toolchain PATH needle the operation succeeds and changes no file; if it lacks
it, the operation appends the block carrying exactly one export line to that
file (the occurrence count of the export line grows by exactly one), and a
second run on the resulting filesystem is a no-op success. -/
theorem setupEnvironment_idempotent (shell home : Str)
    (fs : List (Str × Str)) (cf content : Str)
    (hfe : firstExisting fs (configFilesFor shell home)
      = some (cf, content)) :
    (containsStr content needle = true →
        setupEnvironment shell home fs = (fs, .ok ()))
      ∧ (containsStr content needle = false →
          setupEnvironment shell home fs
              = (setFile fs cf (content ++ appendedBlock), .ok ())
            ∧ countOccur goPathLine (content ++ appendedBlock)
              = countOccur goPathLine content + 1
            ∧ countOccur goPathLine (content ++ appendedBlock) = 1
            ∧ setupEnvironment shell home
                  (setFile fs cf (content ++ appendedBlock))
                = (setFile fs cf (content ++ appendedBlock), .ok ())) := by
  have hloop := setupEnvLoop_of_firstExisting fs _ cf content hfe
  constructor
  · intro hcy
    unfold setupEnvironment
    rw [hloop]
    simp [hcy]
  · intro hcn
    have hcount : countOccur goPathLine (content ++ appendedBlock)
        = countOccur goPathLine content + 1 := by
      have hsplit := countOccur_append_cons goPathLine content appendedTail
        '\n' goPathLine_ne_nil newline_not_in_goPathLine
      have hblock : appendedBlock = '\n' :: appendedTail := rfl
      rw [hblock, hsplit, count_goPathLine_appendedBlock]
    refine ⟨?_, hcount, ?_, ?_⟩
    · unfold setupEnvironment
      rw [hloop]
      simp [hcn]
    · rw [hcount, countOccur_goPathLine_eq_zero content hcn]
    · have hfe2 := firstExisting_setFile fs _ cf content
        (content ++ appendedBlock) hfe
      have hloop2 := setupEnvLoop_of_firstExisting
        (setFile fs cf (content ++ appendedBlock)) _ cf
        (content ++ appendedBlock) hfe2
      have hcontains : containsStr (content ++ appendedBlock) needle = true :=
        containsStr_append_right content appendedBlock needle
          needle_in_appendedBlock
      unfold setupEnvironment
      rw [hloop2]
      simp [hcontains]

/-- Witness for C8: a zsh user whose `.zshrc` exists with content "x". -/
theorem setupEnvironment_idempotent_witness :
    (containsStr "x".data needle = true →
        setupEnvironment "/bin/zsh".data "/root".data
            [("/root/.zshrc".data, "x".data)]
          = ([("/root/.zshrc".data, "x".data)], .ok ()))
      ∧ (containsStr "x".data needle = false →
          setupEnvironment "/bin/zsh".data "/root".data
              [("/root/.zshrc".data, "x".data)]
              = (setFile [("/root/.zshrc".data, "x".data)]
                  "/root/.zshrc".data ("x".data ++ appendedBlock), .ok ())
            ∧ countOccur goPathLine ("x".data ++ appendedBlock)
              = countOccur goPathLine "x".data + 1
            ∧ countOccur goPathLine ("x".data ++ appendedBlock) = 1
            ∧ setupEnvironment "/bin/zsh".data "/root".data
                  (setFile [("/root/.zshrc".data, "x".data)]
                    "/root/.zshrc".data ("x".data ++ appendedBlock))
                = (setFile [("/root/.zshrc".data, "x".data)]
                    "/root/.zshrc".data ("x".data ++ appendedBlock),
                   .ok ())) :=
  setupEnvironment_idempotent "/bin/zsh".data "/root".data
    [("/root/.zshrc".data, "x".data)] "/root/.zshrc".data "x".data (by decide)

/-! ## The installation pipeline state machine: installModel
(src/internal/cli/sysDepedencies.go) -/

/-- `installState` of the pipeline. -/
inductive InstallState where
  | downloading
  | verifying
  | removing
  | extracting
  | configuring
  | done
  | error
deriving DecidableEq

/-- The five asynchronous pipeline steps a transition can dispatch
(`m.stepDownload()` … `m.stepConfigure()`). -/
inductive StepCmd where
  | download
  | verify
  | remove
  | extract
  | configure
deriving DecidableEq

/-- The commands `installModel.Update` can return: `tea.Quit`, one of the
step commands, or the spinner tick. -/
inductive InstallCmd where
  | quit
  | step (s : StepCmd)
  | spin
deriving DecidableEq

/-- The messages of the pipeline: key presses, the five per-step completion
messages (`downloadedMsg` carries filename and sha256), and spinner ticks. -/
inductive InstallMsg where
  | key (s : Str)
  | downloaded (filename sha256 : Str) (err : Option Str)
  | verified (err : Option Str)
  | removed (err : Option Str)
  | extracted (err : Option Str)
  | configured (err : Option Str)
  | tick
deriving DecidableEq

/-- `installModel` (the bubbles `spinner.Model` is abstracted to an opaque
string used only by the view). -/
structure InstallModel where
  state : InstallState
  spinner : Str
  version : Str
  targetOS : Str
  targetArch : Str
  releases : List GoRelease
  err : Option Str
  filename : Str
  sha256 : Str
deriving DecidableEq

/-- `newInstallModel`: start in `Downloading` with zero-valued fields. -/
def newInstallModel (version targetOS targetArch : Str)
    (releases : List GoRelease) : InstallModel :=
  { state := .downloading, spinner := [], version := version,
    targetOS := targetOS, targetArch := targetArch, releases := releases,
    err := none, filename := [], sha256 := [] }

/-- Embedding of `installModel.Update`, translated case by case from the Go
`switch msg := msg.(type)`; the spinner update on ticks is the identity (the
spinner is presentation-only). -/
def installUpdate (m : InstallModel) (msg : InstallMsg) :
    InstallModel × Option InstallCmd :=
  match msg with
  | .key s =>
    if s = "ctrl+c".data ∨ s = "q".data then (m, some .quit) else (m, none)
  | .downloaded f sha err =>
    match err with
    | some e => ({ m with err := some e, state := .error }, some .quit)
    | none =>
      ({ m with filename := f, sha256 := sha, state := .verifying },
       some (.step .verify))
  | .verified err =>
    match err with
    | some e => ({ m with err := some e, state := .error }, some .quit)
    | none => ({ m with state := .removing }, some (.step .remove))
  | .removed err =>
    match err with
    | some e => ({ m with err := some e, state := .error }, some .quit)
    | none => ({ m with state := .extracting }, some (.step .extract))
  | .extracted err =>
    match err with
    | some e => ({ m with err := some e, state := .error }, some .quit)
    | none => ({ m with state := .configuring }, some (.step .configure))
  | .configured err =>
    match err with
    | some e => ({ m with err := some e, state := .error }, some .quit)
    | none => ({ m with state := .done }, some .quit)
  | .tick =>
    if m.state = .done ∨ m.state = .error then (m, none) else (m, some .spin)

/-- Whether a message is the completion event of the pending dispatched
step — the dispatch discipline of the bubbletea loop: each step's completion
message is delivered only because that step's command was issued. -/
def matchesStep : Option StepCmd → InstallMsg → Bool
  | some .download, .downloaded _ _ _ => true
  | some .verify, .verified _ => true
  | some .remove, .removed _ => true
  | some .extract, .extracted _ => true
  | some .configure, .configured _ => true
  | _, _ => false

/-- The step dispatched by a returned command, if any. -/
def cmdStep : Option InstallCmd → Option StepCmd
  | some (.step s) => some s
  | _ => none

/-- Run the pipeline over a sequence of step-completion events under the
dispatch discipline: `none` marks an ill-formed trace (an event with no
matching dispatched step). -/
def runInstall : InstallModel → Option StepCmd → List InstallMsg →
    Option (InstallModel × Option StepCmd)
  | m, p, [] => some (m, p)
  | m, p, msg :: rest =>
    if matchesStep p msg then
      runInstall (installUpdate m msg).1 (cmdStep (installUpdate m msg).2) rest
    else none

/-- The linear successor of each pipeline state. -/
def nextState : InstallState → InstallState
  | .downloading => .verifying
  | .verifying => .removing
  | .removing => .extracting
  | .extracting => .configuring
  | .configuring => .done
  | .done => .done
  | .error => .error

/-- Consistency of state and pending dispatched step. -/
def InstallInv (m : InstallModel) (p : Option StepCmd) : Prop :=
  (m.state = .downloading ∧ p = some .download)
    ∨ (m.state = .verifying ∧ p = some .verify)
    ∨ (m.state = .removing ∧ p = some .remove)
    ∨ (m.state = .extracting ∧ p = some .extract)
    ∨ (m.state = .configuring ∧ p = some .configure)
    ∨ ((m.state = .done ∨ m.state = .error) ∧ p = none)

/-- States only reachable after a verification success. -/
def afterVerify (s : InstallState) : Prop :=
  s = .removing ∨ s = .extracting ∨ s = .configuring ∨ s = .done

/-- States only reachable after a removal completion. -/
def afterRemove (s : InstallState) : Prop :=
  s = .extracting ∨ s = .configuring ∨ s = .done

lemma installStep_props (m : InstallModel) (p : Option StepCmd)
    (msg : InstallMsg) (hm : matchesStep p msg = true)
    (hinv : InstallInv m p) :
    InstallInv (installUpdate m msg).1 (cmdStep (installUpdate m msg).2)
      ∧ (afterVerify (installUpdate m msg).1.state →
          afterVerify m.state ∨ msg = .verified none)
      ∧ (afterRemove (installUpdate m msg).1.state →
          afterRemove m.state ∨ msg = .removed none)
      ∧ (installUpdate m msg).1.state ≠ m.state
      ∧ ((installUpdate m msg).1.state = nextState m.state
          ∨ (installUpdate m msg).1.state = .error) := by
  rcases hinv with ⟨hs, hp⟩ | ⟨hs, hp⟩ | ⟨hs, hp⟩ | ⟨hs, hp⟩ | ⟨hs, hp⟩
    | ⟨hs, hp⟩
  all_goals subst hp
  all_goals cases msg <;>
    simp_all [matchesStep, installUpdate, cmdStep, InstallInv, afterVerify,
      afterRemove, nextState]
  all_goals rename_i err
  all_goals cases err <;>
    simp_all [installUpdate, cmdStep, InstallInv, afterVerify, afterRemove,
      nextState]

lemma runInstall_props (msgs : List InstallMsg) :
    ∀ (m : InstallModel) (p : Option StepCmd) (m' : InstallModel)
      (p' : Option StepCmd),
      InstallInv m p →
      runInstall m p msgs = some (m', p') →
      InstallInv m' p'
        ∧ (afterVerify m'.state →
            afterVerify m.state ∨ InstallMsg.verified none ∈ msgs)
        ∧ (afterRemove m'.state →
            afterRemove m.state ∨ InstallMsg.removed none ∈ msgs) := by
  induction msgs with
  | nil =>
    intro m p m' p' hinv hrun
    simp only [runInstall, Option.some.injEq, Prod.mk.injEq] at hrun
    obtain ⟨h1, h2⟩ := hrun
    subst h1; subst h2
    exact ⟨hinv, fun h => Or.inl h, fun h => Or.inl h⟩
  | cons msg rest ih =>
    intro m p m' p' hinv hrun
    simp only [runInstall] at hrun
    by_cases hm : matchesStep p msg = true
    · rw [if_pos hm] at hrun
      obtain ⟨hinv1, hA1, hB1, _, _⟩ := installStep_props m p msg hm hinv
      obtain ⟨hinv', hA, hB⟩ := ih _ _ _ _ hinv1 hrun
      refine ⟨hinv', ?_, ?_⟩
      · intro h
        rcases hA h with h1 | h1
        · rcases hA1 h1 with h2 | h2
          · exact Or.inl h2
          · exact Or.inr (h2 ▸ List.mem_cons_self _ _)
        · exact Or.inr (List.mem_cons_of_mem _ h1)
      · intro h
        rcases hB h with h1 | h1
        · rcases hB1 h1 with h2 | h2
          · exact Or.inl h2
          · exact Or.inr (h2 ▸ List.mem_cons_self _ _)
        · exact Or.inr (List.mem_cons_of_mem _ h1)
    · rw [if_neg hm] at hrun
      cases hrun

lemma runInstall_append_of_some (msgs : List InstallMsg) :
    ∀ (m : InstallModel) (p : Option StepCmd) (m1 : InstallModel)
      (p1 : Option StepCmd) (msg : InstallMsg),
      runInstall m p msgs = some (m1, p1) →
      runInstall m p (msgs ++ [msg])
        = if matchesStep p1 msg then
            some ((installUpdate m1 msg).1, cmdStep (installUpdate m1 msg).2)
          else none := by
  induction msgs with
  | nil =>
    intro m p m1 p1 msg h
    simp only [runInstall, Option.some.injEq, Prod.mk.injEq] at h
    obtain ⟨h1, h2⟩ := h
    rw [← h1, ← h2]
    by_cases hm : matchesStep p msg = true <;> simp [runInstall, hm]
  | cons m0 rest ih =>
    intro m p m1 p1 msg h
    simp only [runInstall, List.cons_append] at h ⊢
    by_cases hm : matchesStep p m0 = true
    · rw [if_pos hm] at h ⊢
      exact ih _ _ _ _ msg h
    · rw [if_neg hm] at h
      cases h

/-- C3: along every well-formed event trace of the pipeline started in
`Downloading` (each step-completion message being the one for the step
dispatched by the previous transition), the machine reaches `Extracting`
only after a verification-success event is in the trace and reaches
`Configuring` only after a removal-completion event is in the trace;
moreover every further step event moves the state to a *different* state
that is either the linear successor or `Error` (no state re-enters itself,
no state is skipped), and key or tick events never change the state. -/
theorem installPipeline_ordering (ver tos tarch : Str)
    (rels : List GoRelease) (msgs : List InstallMsg) (m' : InstallModel)
    (p' : Option StepCmd)
    (hrun : runInstall (newInstallModel ver tos tarch rels)
      (some .download) msgs = some (m', p')) :
    (m'.state = .extracting → InstallMsg.verified none ∈ msgs)
      ∧ (m'.state = .configuring → InstallMsg.removed none ∈ msgs)
      ∧ (∀ (msg : InstallMsg) (m'' : InstallModel) (p'' : Option StepCmd),
          runInstall (newInstallModel ver tos tarch rels) (some .download)
              (msgs ++ [msg]) = some (m'', p'') →
          m''.state ≠ m'.state
            ∧ (m''.state = nextState m'.state ∨ m''.state = .error))
      ∧ (∀ s : Str, (installUpdate m' (.key s)).1.state = m'.state)
      ∧ (installUpdate m' .tick).1.state = m'.state := by
  have hinv0 : InstallInv (newInstallModel ver tos tarch rels)
      (some .download) := Or.inl ⟨rfl, rfl⟩
  obtain ⟨hinv', hA, hB⟩ :=
    runInstall_props msgs _ _ _ _ hinv0 hrun
  refine ⟨?_, ?_, ?_, ?_, ?_⟩
  · intro h
    rcases hA (Or.inr (Or.inl h)) with h1 | h1
    · rcases h1 with h2 | h2 | h2 | h2 <;> cases h2
    · exact h1
  · intro h
    rcases hB (Or.inr (Or.inl h)) with h1 | h1
    · rcases h1 with h2 | h2 | h2 <;> cases h2
    · exact h1
  · intro msg m'' p'' hrun2
    rw [runInstall_append_of_some msgs _ _ _ _ msg hrun] at hrun2
    by_cases hm : matchesStep p' msg = true
    · rw [if_pos hm] at hrun2
      simp only [Option.some.injEq, Prod.mk.injEq] at hrun2
      obtain ⟨h1, _⟩ := hrun2
      obtain ⟨_, _, _, hne, hnx⟩ := installStep_props m' p' msg hm hinv'
      exact ⟨h1 ▸ hne, h1 ▸ hnx⟩
    · rw [if_neg hm] at hrun2
      cases hrun2
  · intro s
    by_cases hk : s = "ctrl+c".data ∨ s = "q".data
    · simp [installUpdate, hk]
    · simp [installUpdate, hk]
  · by_cases hd : m'.state = .done ∨ m'.state = .error
    · simp [installUpdate, hd]
    · simp [installUpdate, hd]

/-- Witness for C3: the concrete trace download-ok, verify-ok, remove-ok
reaches `Extracting`, and the trace indeed contains the
verification-success event. -/
theorem installPipeline_ordering_witness :
    InstallMsg.verified none ∈
      [InstallMsg.downloaded "f".data "s".data none,
       InstallMsg.verified none, InstallMsg.removed none] :=
  (installPipeline_ordering "go1.22.1".data "linux".data "amd64".data []
    [InstallMsg.downloaded "f".data "s".data none,
     InstallMsg.verified none, InstallMsg.removed none]
    ((runInstall (newInstallModel "go1.22.1".data "linux".data "amd64".data
        [])
      (some .download)
      [InstallMsg.downloaded "f".data "s".data none,
       InstallMsg.verified none, InstallMsg.removed none]).getD
        (newInstallModel [] [] [] [], none)).1
    ((runInstall (newInstallModel "go1.22.1".data "linux".data "amd64".data
        [])
      (some .download)
      [InstallMsg.downloaded "f".data "s".data none,
       InstallMsg.verified none, InstallMsg.removed none]).getD
        (newInstallModel [] [] [] [], none)).2
    (by decide)).1 (by decide)

/-! ## installModel.View (src/internal/cli/sysDepedencies.go) -/

/-- `fmt`'s `%v` rendering of an `error` value (a `nil` error prints
"<nil>"). -/
def fmtErr : Option Str → Str
  | some e => e
  | none => "<nil>".data

/-- `installModel.getStepDescription`. -/
def getStepDescription (m : InstallModel) : Str :=
  match m.state with
  | .downloading => "Downloading Go archive...".data
  | .verifying => "Verifying checksum...".data
  | .removing => "Removing old installation...".data
  | .extracting => "Extracting archive...".data
  | .configuring => "Configuring environment...".data
  | _ => "Installing...".data

/-- Embedding of `installModel.View` with styles' `Render` as the identity.
The Done branch reproduces the Go source verbatim: its
`fmt.Sprintf("\n✓ Successfully installed %s to /usr/local/go")` has a `%s`
verb but no argument, which Go renders as the literal `%!s(MISSING)` — the
version string never reaches the final report. -/
def installView (m : InstallModel) : Str :=
  if m.state = .error then
    "\n✗ Error: ".data ++ fmtErr m.err ++ "\n\n".data
  else if m.state = .done then
    "\n✓ Successfully installed %!s(MISSING) to /usr/local/go".data
      ++ "\nPlease restart your terminal or run 'source' on your shell configuration file to apply the changes.\n".data
  else
    "\n".data ++ m.spinner ++ " ".data ++ getStepDescription m ++ "\n".data

/-- The pipeline model of a session that has reached `Configuring` for
version go1.22.1. -/
def doneInputModel : InstallModel :=
  { state := .configuring, spinner := [], version := "go1.22.1".data,
    targetOS := "linux".data, targetArch := "amd64".data, releases := [],
    err := none, filename := "go1.22.1.linux-amd64.tar.gz".data,
    sha256 := [] }

/-- C9 evaluated at the failing input: a successful `configuredMsg` does
transition the pipeline to `Done`, and the Done-state view does contain the
final install location `/usr/local/go`, but — contrary to the claim — the
installed version string (here "go1.22.1") appears nowhere in the report:
the Go `Sprintf` call lost its argument and prints `%!s(MISSING)`. -/
theorem installDone_report_missing_version :
    (installUpdate doneInputModel (.configured none)).1.state = .done
      ∧ containsStr
          (installView (installUpdate doneInputModel (.configured none)).1)
          "/usr/local/go".data = true
      ∧ (installUpdate doneInputModel (.configured none)).1.version
          = "go1.22.1".data
      ∧ containsStr
          (installView (installUpdate doneInputModel (.configured none)).1)
          "go1.22.1".data = false := by
  refine ⟨rfl, by decide, rfl, by decide⟩

/-! ## The orchestrator: mainModel (src/unnamed/part_000, package cli,
the variant with dependency states) -/

/-- `mainState` of the orchestrator. -/
inductive MainState where
  | checkingDeps
  | confirmInstallDeps
  | installingDeps
  | fetching
  | selectVersion
  | confirmOverride
  | installing
  | done
  | error
deriving DecidableEq

/-- A `dependency` descriptor (`packageName` as an association list). -/
structure Dependency where
  name : Str
  checkCmd : Str
  packageName : List (Str × Str)
  required : Bool
deriving DecidableEq

/-- `distroInfo`. -/
structure DistroInfo where
  name : Str
  packageManager : Str
  installCmd : Str
  updateCmd : Str
deriving DecidableEq

/-- An `item` of the bubbles version list. -/
structure ListItem where
  title : Str
  desc : Str
deriving DecidableEq

/-- The bubbles list widget, abstracted to its items and cursor (the widget
itself is an excluded presentation collaborator; only `SelectedItem` feeds
the orchestrator). -/
structure ListModel where
  items : List ListItem
  cursor : Nat
deriving DecidableEq

/-- `list.SelectedItem` with its `ok` type assertion: `none` when out of
range. -/
def selectedItem (l : ListModel) : Option ListItem := l.items.get? l.cursor

/-- The orchestrator's messages. -/
inductive MainMsg where
  | key (s : Str)
  | depsCheck (missing : List Dependency) (distro : DistroInfo)
      (err : Option Str)
  | depsInstall (err : Option Str)
  | fetched (releases : List GoRelease) (err : Option Str)
  | installComplete (err : Option Str)
  | tick
deriving DecidableEq

/-- The commands the orchestrator can issue (spinner ticks inside
`tea.Batch` are presentation-only and omitted). -/
inductive MainCmd where
  | quit
  | checkDeps
  | installDeps (distro : DistroInfo) (deps : List Dependency)
  | fetchReleases
  | startInstall (ver tos tarch : Str) (rels : List GoRelease)
  | spin
deriving DecidableEq

/-- `mainModel` (spinner abstracted as for the pipeline). -/
structure MainModel where
  state : MainState
  releases : List GoRelease
  list : ListModel
  spinner : Str
  selectedVer : Str
  targetOS : Str
  targetArch : Str
  err : Option Str
  missingDeps : List Dependency
  distro : DistroInfo
deriving DecidableEq

/-- The fatal error set when the dependency confirmation is declined. -/
def depsRequiredErr : Str :=
  "dependencies are required for Go installation".data

/-- `mainModel.startInstallation`: the Go method swaps the top-level model
for a fresh `installModel` and runs its `Init`; entering `Installing`
together with the `startInstall` command marks that handoff. -/
def startInstallation (m : MainModel) : MainModel × Option MainCmd :=
  ({ m with state := .installing },
   some (.startInstall m.selectedVer m.targetOS m.targetArch m.releases))

/-- The items built for the interactive version list: first release is
"Latest stable release", the rest "Go release". -/
def buildItems : List GoRelease → List ListItem
  | [] => []
  | r0 :: rest =>
    ⟨r0.version, "Latest stable release".data⟩
      :: rest.map (fun r => ListItem.mk r.version "Go release".data)

/-- Embedding of `mainModel.Update` (the part_000 variant with the
dependency-resolver states), translated case by case.  `rootExists` is the
result of the `os.Stat("/usr/local/go")` probe; the bubbles list update for
unhandled keys in `SelectVersion` is presentation-only and modelled as the
identity. -/
def mainUpdate (rootExists : Bool) (m : MainModel) (msg : MainMsg) :
    MainModel × Option MainCmd :=
  match msg with
  | .key s =>
    if m.state = .confirmInstallDeps then
      if s = "y".data ∨ s = "Y".data then
        ({ m with state := .installingDeps },
         some (.installDeps m.distro m.missingDeps))
      else if s = "n".data ∨ s = "N".data then
        ({ m with state := .error, err := some depsRequiredErr }, some .quit)
      else if s = "q".data ∨ s = "ctrl+c".data then (m, some .quit)
      else (m, none)
    else if m.state = .selectVersion then
      if s = "ctrl+c".data ∨ s = "q".data then (m, some .quit)
      else if s = "enter".data then
        match selectedItem m.list with
        | some it =>
          let m1 := { m with selectedVer := it.title }
          if rootExists then ({ m1 with state := .confirmOverride }, none)
          else startInstallation m1
        | none => (m, none)
      else (m, none)
    else if m.state = .confirmOverride then
      if s = "y".data ∨ s = "Y".data then startInstallation m
      else if s = "n".data ∨ s = "N".data ∨ s = "q".data
          ∨ s = "ctrl+c".data then (m, some .quit)
      else (m, none)
    else (m, none)
  | .depsCheck missing distro err =>
    match err with
    | some e => ({ m with err := some e, state := .error }, some .quit)
    | none =>
      if missing = [] then
        ({ m with distro := distro, state := .fetching },
         some .fetchReleases)
      else
        ({ m with
            distro := distro
            missingDeps := missing
            state := .confirmInstallDeps },
         none)
  | .depsInstall err =>
    match err with
    | some e => ({ m with err := some e, state := .error }, some .quit)
    | none => ({ m with state := .fetching }, some .fetchReleases)
  | .fetched rels err =>
    match err with
    | some e => ({ m with err := some e, state := .error }, some .quit)
    | none =>
      if m.selectedVer ≠ []
          ∧ exceptOk (FindBuild rels m.selectedVer m.targetOS m.targetArch)
            = true then
        if rootExists then
          ({ m with releases := rels, state := .confirmOverride }, none)
        else startInstallation { m with releases := rels }
      else
        ({ m with
            releases := rels
            list := ⟨buildItems rels, 0⟩
            state := .selectVersion },
         none)
  | .installComplete err =>
    match err with
    | some e => ({ m with err := some e, state := .error }, some .quit)
    | none => ({ m with state := .done }, some .quit)
  | .tick => (m, none)

/-- C5: whatever the set of missing dependencies (required only,
recommended only, or a mix — `m.missingDeps` is arbitrary), pressing "n" or
"N" at the dependency-install confirmation sets the fatal
"dependencies are required" error and quits: the session terminates and no
installation command is issued. -/
theorem depsDecline_fatal (rootExists : Bool) (m : MainModel) (s : Str)
    (hstate : m.state = .confirmInstallDeps)
    (hs : s = "n".data ∨ s = "N".data) :
    mainUpdate rootExists m (.key s)
      = ({ m with state := .error, err := some depsRequiredErr },
         some .quit) := by
  have hny : ¬("n".data = "y".data ∨ "n".data = "Y".data) := by decide
  have hNy : ¬("N".data = "y".data ∨ "N".data = "Y".data) := by decide
  have hnn : ("n".data = "n".data ∨ "n".data = "N".data) := by decide
  have hNn : ("N".data = "n".data ∨ "N".data = "N".data) := by decide
  rcases hs with h | h <;> subst h <;>
    simp [mainUpdate, hstate, hny, hNy, hnn, hNn]

/-- Witness for C5: a concrete model with one missing recommended
dependency, declining with "n". -/
theorem depsDecline_fatal_witness :
    mainUpdate true
        { state := .confirmInstallDeps, releases := [], list := ⟨[], 0⟩,
          spinner := [], selectedVer := [], targetOS := "linux".data,
          targetArch := "amd64".data, err := none,
          missingDeps := [⟨"Git".data, "git --version".data, [], false⟩],
          distro := ⟨"debian".data, "apt-get".data, [], []⟩ }
        (.key "n".data)
      = ({ state := .error, releases := [], list := ⟨[], 0⟩,
           spinner := [], selectedVer := [], targetOS := "linux".data,
           targetArch := "amd64".data, err := some depsRequiredErr,
           missingDeps := [⟨"Git".data, "git --version".data, [], false⟩],
           distro := ⟨"debian".data, "apt-get".data, [], []⟩ },
         some .quit) :=
  depsDecline_fatal true _ _ rfl (Or.inl rfl)

/-- C4: with the install root present (`rootExists = true`), the only way
`mainModel.Update` ever issues the start-installation command — whether the
version was pre-selected (fetchedMsg path) or chosen interactively
(SelectVersion path) — is an explicit "y"/"Y" keypress in the
`ConfirmOverride` state; and declining ("n"/"N", or cancelling with "q"/
ctrl+c) in `ConfirmOverride` quits the session with the model — and hence
the filesystem — untouched. -/
theorem overwrite_confirmation_required (m : MainModel) (msg : MainMsg) :
    (∀ (ver tos tarch : Str) (rels : List GoRelease),
        (mainUpdate true m msg).2 = some (.startInstall ver tos tarch rels) →
        m.state = .confirmOverride
          ∧ (msg = .key "y".data ∨ msg = .key "Y".data))
      ∧ (m.state = .confirmOverride →
          ∀ s : Str,
            (s = "n".data ∨ s = "N".data ∨ s = "q".data
              ∨ s = "ctrl+c".data) →
            mainUpdate true m (.key s) = (m, some .quit)) := by
  constructor
  · intro ver tos tarch rels h
    cases msg with
    | key s =>
      cases hstate : m.state with
      | confirmInstallDeps =>
        simp only [mainUpdate, hstate] at h
        split_ifs at h <;> simp_all
      | selectVersion =>
        simp only [mainUpdate, hstate] at h
        split_ifs at h <;> try simp_all
        cases hsel : selectedItem m.list <;> simp [hsel] at h
      | confirmOverride =>
        simp [mainUpdate, hstate] at h
        split_ifs at h with hc1 hc2
        · constructor
          · simp [hstate]
          · rcases hc1 with h2 | h2 <;> subst h2
            · exact Or.inl rfl
            · exact Or.inr rfl
        · simp at h
      | checkingDeps => simp [mainUpdate, hstate] at h
      | installingDeps => simp [mainUpdate, hstate] at h
      | fetching => simp [mainUpdate, hstate] at h
      | installing => simp [mainUpdate, hstate] at h
      | done => simp [mainUpdate, hstate] at h
      | error => simp [mainUpdate, hstate] at h
    | depsCheck missing distro err =>
      cases err with
      | some e => simp [mainUpdate] at h
      | none =>
        simp only [mainUpdate] at h
        split_ifs at h
        simp_all
    | depsInstall err => cases err <;> simp [mainUpdate] at h
    | fetched rels2 err =>
      cases err with
      | some e => simp [mainUpdate] at h
      | none =>
        simp only [mainUpdate] at h
        split_ifs at h
    | installComplete err => cases err <;> simp [mainUpdate] at h
    | tick => simp [mainUpdate] at h
  · intro hstate s hs
    have hq1 : ¬("n".data = "y".data ∨ "n".data = "Y".data) := by decide
    have hq2 : ¬("N".data = "y".data ∨ "N".data = "Y".data) := by decide
    have hq3 : ¬("q".data = "y".data ∨ "q".data = "Y".data) := by decide
    have hq4 : ¬("ctrl+c".data = "y".data ∨ "ctrl+c".data = "Y".data) := by
      decide
    have hr1 : ("n".data = "n".data ∨ "n".data = "N".data
        ∨ "n".data = "q".data ∨ "n".data = "ctrl+c".data) := by decide
    have hr2 : ("N".data = "n".data ∨ "N".data = "N".data
        ∨ "N".data = "q".data ∨ "N".data = "ctrl+c".data) := by decide
    have hr3 : ("q".data = "n".data ∨ "q".data = "N".data
        ∨ "q".data = "q".data ∨ "q".data = "ctrl+c".data) := by decide
    have hr4 : ("ctrl+c".data = "n".data ∨ "ctrl+c".data = "N".data
        ∨ "ctrl+c".data = "q".data ∨ "ctrl+c".data = "ctrl+c".data) := by
      decide
    rcases hs with h | h | h | h <;> subst h
    · simp [mainUpdate, hstate, hq1, hr1]
    · simp [mainUpdate, hstate, hq2, hr2]
    · simp [mainUpdate, hstate, hq3, hr3]
    · simp [mainUpdate, hstate, hq4, hr4]

/-- A session sitting at the overwrite confirmation for go1.22.1. -/
def overrideModel : MainModel :=
  { state := .confirmOverride, releases := [], list := ⟨[], 0⟩,
    spinner := [], selectedVer := "go1.22.1".data, targetOS := "linux".data,
    targetArch := "amd64".data, err := none, missingDeps := [],
    distro := ⟨[], [], [], []⟩ }

/-- Witness for C4: pressing "y" in `ConfirmOverride` does issue the
start-installation command, and the theorem recovers the confirmation
state. -/
theorem overwrite_confirmation_required_witness :
    overrideModel.state = .confirmOverride
      ∧ (MainMsg.key "y".data = MainMsg.key "y".data
          ∨ MainMsg.key "y".data = MainMsg.key "Y".data) :=
  (overwrite_confirmation_required overrideModel (.key "y".data)).1
    "go1.22.1".data "linux".data "amd64".data [] (by decide)

instance {ε α : Type} [DecidableEq ε] [DecidableEq α] :
    DecidableEq (Except ε α) := fun x y =>
  match x, y with
  | .ok a, .ok b =>
    decidable_of_iff (a = b) ⟨fun h => h ▸ rfl, fun h => by cases h; rfl⟩
  | .error a, .error b =>
    decidable_of_iff (a = b) ⟨fun h => h ▸ rfl, fun h => by cases h; rfl⟩
  | .ok _, .error _ => isFalse (fun h => by cases h)
  | .error _, .ok _ => isFalse (fun h => by cases h)

/-- A session whose user pre-selected version go1.99.9, waiting for the
catalog fetch. -/
def preselectModel : MainModel :=
  { state := .fetching, releases := [], list := ⟨[], 0⟩, spinner := [],
    selectedVer := "go1.99.9".data, targetOS := "linux".data,
    targetArch := "amd64".data, err := none, missingDeps := [],
    distro := ⟨[], [], [], []⟩ }

/-- A catalog in which go1.99.9 is absent entirely. -/
def releasesA : List GoRelease :=
  [⟨"go1.22.1".data,
    [⟨"go1.22.1.linux-amd64.tar.gz".data, "linux".data, "amd64".data,
      "archive".data, "cafe".data⟩]⟩]

/-- A catalog in which go1.99.9 exists but offers no linux/amd64 archive. -/
def releasesB : List GoRelease :=
  [⟨"go1.99.9".data,
    [⟨"go1.99.9.src.tar.gz".data, [], [], "source".data, "cafe".data⟩]⟩]

/-- C6 counterexample: for the pre-selected version go1.99.9, build selection
fails on `releasesA` with "version not found" and on `releasesB` with
"version exists but no archive", yet in both cases `mainModel.Update`
reacts to the catalog identically — it silently switches to the interactive
version picker, records no error and issues no command.  Neither failure is
presented to the user at all, let alone distinctly, refuting the claim. -/
theorem preselect_failure_counterexample :
    exceptOk (FindBuild releasesA "go1.99.9".data "linux".data "amd64".data)
        = false
      ∧ FindBuild releasesA "go1.99.9".data "linux".data "amd64".data
        = .error (errNotFound "go1.99.9".data)
      ∧ exceptOk (FindBuild releasesB "go1.99.9".data "linux".data
          "amd64".data) = false
      ∧ FindBuild releasesB "go1.99.9".data "linux".data "amd64".data
        = .error (errNoArchive "go1.99.9".data "linux".data "amd64".data)
      ∧ (mainUpdate true preselectModel (.fetched releasesA none)).1.state
        = .selectVersion
      ∧ (mainUpdate true preselectModel (.fetched releasesA none)).1.err
        = none
      ∧ (mainUpdate true preselectModel (.fetched releasesA none)).2 = none
      ∧ (mainUpdate true preselectModel (.fetched releasesB none)).1.state
        = .selectVersion
      ∧ (mainUpdate true preselectModel (.fetched releasesB none)).1.err
        = none
      ∧ (mainUpdate true preselectModel (.fetched releasesB none)).2
        = none := by
  decide

/-- C6 (amended): when build selection fails for a user-supplied pre-selected
version, the orchestrator does not surface the failure at all: it falls back
to the interactive version picker, leaves the recorded error unchanged and
issues no command — the two failure kinds remain distinguishable only in the
build selector's own (always distinct) error messages, not at this
user-visible decision point. -/
theorem preselect_failure_falls_back (rootExists : Bool) (m : MainModel)
    (rels : List GoRelease) (_hver : m.selectedVer ≠ [])
    (hfail : exceptOk
      (FindBuild rels m.selectedVer m.targetOS m.targetArch) = false) :
    (mainUpdate rootExists m (.fetched rels none)).1.state = .selectVersion
      ∧ (mainUpdate rootExists m (.fetched rels none)).1.err = m.err
      ∧ (mainUpdate rootExists m (.fetched rels none)).2 = none
      ∧ ∀ (ver goos arch : Str),
          errNotFound ver ≠ errNoArchive ver goos arch := by
  have hcond : ¬(m.selectedVer ≠ []
      ∧ exceptOk (FindBuild rels m.selectedVer m.targetOS m.targetArch)
        = true) := by
    rintro ⟨-, h2⟩
    rw [hfail] at h2
    cases h2
  refine ⟨?_, ?_, ?_, fun ver goos arch =>
    errNotFound_ne_errNoArchive ver goos arch⟩
  · simp [mainUpdate, hcond]
  · simp [mainUpdate, hcond]
  · simp [mainUpdate, hcond]

/-- Witness for C6's amended theorem at the concrete absent-version
catalog. -/
theorem preselect_failure_falls_back_witness :
    (mainUpdate true preselectModel (.fetched releasesA none)).1.state
        = .selectVersion
      ∧ (mainUpdate true preselectModel (.fetched releasesA none)).1.err
        = preselectModel.err
      ∧ (mainUpdate true preselectModel (.fetched releasesA none)).2 = none
      ∧ ∀ (ver goos arch : Str),
          errNotFound ver ≠ errNoArchive ver goos arch :=
  preselect_failure_falls_back true preselectModel releasesA (by decide)
    (by decide)
